import Mathlib

/-!
Verification of the incremental-download / time-series-reconciliation engine
of the `world-of-energy` repository.

The development embeds, as executable Lean functions, the control logic of:
  * `src/woe/smard/api.py` (`download_smard_data`): block-based fetch,
    sort / drop-duplicates-keep-first / dropna post-processing;
  * `src/pipeline/01_download_smard_DE_prices.py` and the structurally
    identical `download_single_variable` functions
    (`01_download_smard_price_analysis_data.py`, `06_download_smard_forecasts.py`,
    `07_download_baseload_and_capacities.py`): baseline loading, resumption-point
    computation, short-circuit, merge (concat / sort / keep-last dedup), persist;
  * `download_capacities` (bundle of monthly capacity variables) and the
    per-variable orchestration loop of `download_all_smard_data`;
  * the calendar arithmetic of `get_start_time` (`+1 hour`, and
    `+32 days then replace(day=1, hour=0, ...)` for monthly resolution).

Timestamps in the merge layer are modelled generically by a linear order
(Python `datetime` values are totally ordered and the merge logic uses only
comparisons); the calendar layer models `datetime`/`timedelta` arithmetic
concretely.  The sources call `sort_values('timestamp')` / `sort_index()` with
pandas' default `kind='quicksort'`, which is documented as not stable, so the
output order of rows with equal timestamps is unspecified: the sort is
therefore modelled nondeterministically (`SortedPermOf`: any timestamp-ordered
permutation of the input), and the executable definitions use a stable
insertion sort as one admissible representative.  Properties that depend on
the order of sort ties are settled against the nondeterministic model, never
against the representative alone.  Values are integers (the logic is
value-agnostic), with missing observations (`NaN`) modelled as `Option`.
-/

namespace WoE

/-! ## Generic row-list primitives (the pandas operations used by the scripts) -/

variable {α : Type} {γ : Type} {β : Type}

/-- All rows of `l` whose timestamp (first component) is `t`, in order. -/
def rowsAt [DecidableEq α] (t : α) (l : List (α × γ)) : List (α × γ) :=
  l.filter (fun r => r.1 = t)

/-- First value stored at timestamp `t` (the value a unique-index lookup returns). -/
def lookupTs [DecidableEq α] (t : α) : List (α × γ) → Option γ
  | [] => none
  | r :: l => if r.1 = t then some r.2 else lookupTs t l

/-- Stable insertion of a row into a list ordered by timestamp: the new row is
placed before any row with an equal timestamp only if it compares `≤`, i.e.
after all strictly smaller timestamps and before equal ones. -/
def insertByTs [LinearOrder α] (r : α × γ) : List (α × γ) → List (α × γ)
  | [] => [r]
  | s :: l => if r.1 ≤ s.1 then r :: s :: l else s :: insertByTs r l

/-- One admissible output of `DataFrame.sort_values('timestamp')` /
`sort_index()`: a stable insertion sort.  The sources use pandas' default
`kind='quicksort'` for these calls, which is documented as not stable, so the
program does not fix the order of rows with equal timestamps; `SortedPermOf`
(below) captures every admissible output, and this function serves as the
executable representative where one concrete output is needed.  Theorems about
the order of ties are stated over `SortedPermOf`, not over this choice. -/
def sortByTs [LinearOrder α] : List (α × γ) → List (α × γ)
  | [] => []
  | r :: l => insertByTs r (sortByTs l)

/-- The contract of `sort_values('timestamp')` / `sort_index()` with pandas'
default (unstable) `kind='quicksort'`: `l'` is an admissible output on input
`l` iff it is a permutation of `l` that is ordered by timestamp.  The relative
order of rows with equal timestamps in `l'` is deliberately unconstrained. -/
def SortedPermOf [LinearOrder α] (l l' : List (α × γ)) : Prop :=
  l.Perm l' ∧ l'.Pairwise (fun r s => r.1 ≤ s.1)

/-- `df[~df.index.duplicated(keep="last")]`: a row is kept iff no later row has
the same timestamp. -/
def dedupKeepLast [DecidableEq α] : List (α × γ) → List (α × γ)
  | [] => []
  | r :: l =>
    if l.any (fun s => s.1 = r.1) then dedupKeepLast l
    else r :: dedupKeepLast l

/-- `df.drop_duplicates(subset='timestamp')` (default `keep='first'`): a row is
kept iff no earlier row has the same timestamp — equivalently, keep-last on the
reversed list, reversed back. -/
def dedupKeepFirst [DecidableEq α] (l : List (α × γ)) : List (α × γ) :=
  (dedupKeepLast l.reverse).reverse

/-- `df.dropna()`: keep only rows whose value is present. -/
def dropna : List (α × Option β) → List (α × β) :=
  List.filterMap (fun r => r.2.map (fun v => (r.1, v)))

/-- Maximum timestamp of a frame (`df.index.max()`), `none` on an empty frame. -/
def maxTs [LinearOrder α] : List (α × γ) → Option α
  | [] => none
  | (t, _) :: l =>
    match maxTs l with
    | none => some t
    | some u => some (max t u)

/-- Strictly increasing timestamps with no duplicates (the series invariant). -/
def StrictSortedTs (l : List (α × γ)) [LT α] : Prop :=
  l.Pairwise (fun r s => r.1 < s.1)

/-- A possible result of the scripts' merge step under the nondeterministic
sort contract: `pd.concat([existing_df, new_df])`, then `sort_index()` with the
unspecified default kind, then `df[~df.index.duplicated(keep="last")]`. -/
def MergeOutcome [LinearOrder α] (ex new r : List (α × γ)) : Prop :=
  ∃ l', SortedPermOf (ex ++ new) l' ∧ r = dedupKeepLast l'

/-- A possible returned frame of `download_smard_data`'s post-processing on raw
rows `raw` under the nondeterministic sort contract:
`sort_values('timestamp')` with the unspecified default kind, then
`drop_duplicates(subset='timestamp')` (keep first), then `dropna()`. -/
def FetchFrameOutcome [LinearOrder α] (raw : List (α × Option β))
    (r : List (α × β)) : Prop :=
  ∃ l', SortedPermOf raw l' ∧ r = dropna (dedupKeepFirst l')

end WoE

namespace WoE

variable {α : Type} {γ : Type} {β : Type}

/-! ## Lemmas about the primitives -/

theorem rowsAt_cons [DecidableEq α] (t : α) (a : α × γ) (l : List (α × γ)) :
    rowsAt t (a :: l) = if a.1 = t then a :: rowsAt t l else rowsAt t l := by
  by_cases h : a.1 = t <;> simp [rowsAt, List.filter_cons, h]

theorem rowsAt_append [DecidableEq α] (t : α) (l₁ l₂ : List (α × γ)) :
    rowsAt t (l₁ ++ l₂) = rowsAt t l₁ ++ rowsAt t l₂ := by
  simp [rowsAt, List.filter_append]

theorem mem_insertByTs [LinearOrder α] {r s : α × γ} {l : List (α × γ)} :
    s ∈ insertByTs r l ↔ s = r ∨ s ∈ l := by
  induction l with
  | nil => simp [insertByTs]
  | cons a l ih =>
    rw [insertByTs]
    by_cases h : r.1 ≤ a.1
    · rw [if_pos h]
      simp only [List.mem_cons]
    · rw [if_neg h]
      simp only [List.mem_cons, ih]
      tauto

theorem pairwise_le_insertByTs [LinearOrder α] {r : α × γ} {l : List (α × γ)}
    (hl : l.Pairwise (fun x y => x.1 ≤ y.1)) :
    (insertByTs r l).Pairwise (fun x y => x.1 ≤ y.1) := by
  induction l with
  | nil => simp [insertByTs]
  | cons a l ih =>
    rcases List.pairwise_cons.mp hl with ⟨ha, hl'⟩
    rw [insertByTs]
    by_cases h : r.1 ≤ a.1
    · rw [if_pos h]
      refine List.pairwise_cons.mpr ⟨?_, hl⟩
      intro s hs
      rcases List.mem_cons.mp hs with rfl | hs'
      · exact h
      · exact le_trans h (ha s hs')
    · rw [if_neg h]
      refine List.pairwise_cons.mpr ⟨?_, ih hl'⟩
      intro s hs
      rcases mem_insertByTs.mp hs with rfl | hs'
      · exact le_of_not_le h
      · exact ha s hs'

theorem pairwise_le_sortByTs [LinearOrder α] (l : List (α × γ)) :
    (sortByTs l).Pairwise (fun x y => x.1 ≤ y.1) := by
  induction l with
  | nil => simp [sortByTs]
  | cons r l ih => exact pairwise_le_insertByTs ih

theorem rowsAt_insertByTs [LinearOrder α] (t : α) (r : α × γ) (l : List (α × γ)) :
    rowsAt t (insertByTs r l) =
      if r.1 = t then r :: rowsAt t l else rowsAt t l := by
  induction l with
  | nil =>
    rw [insertByTs, rowsAt_cons]
  | cons a l ih =>
    rw [insertByTs]
    by_cases h : r.1 ≤ a.1
    · rw [if_pos h, rowsAt_cons]
    · rw [if_neg h, rowsAt_cons, ih]
      have hlt : a.1 < r.1 := lt_of_not_le h
      by_cases ht : r.1 = t
      · have hat : ¬ a.1 = t := fun hh => (ne_of_lt hlt) (hh.trans ht.symm)
        rw [if_neg hat, if_pos ht, if_pos ht, rowsAt_cons, if_neg hat]
      · rw [if_neg ht, if_neg ht, rowsAt_cons]

theorem rowsAt_sortByTs [LinearOrder α] (t : α) (l : List (α × γ)) :
    rowsAt t (sortByTs l) = rowsAt t l := by
  induction l with
  | nil => rfl
  | cons r l ih =>
    rw [sortByTs, rowsAt_insertByTs, ih, rowsAt_cons]

theorem rowsAt_eq_nil_iff [DecidableEq α] {t : α} {l : List (α × γ)} :
    rowsAt t l = [] ↔ ∀ s ∈ l, ¬ s.1 = t := by
  simp [rowsAt, List.filter_eq_nil_iff]

theorem getLast?_cons_of_ne_nil {a : γ} {l : List γ} (h : l ≠ []) :
    (a :: l).getLast? = l.getLast? := by
  cases l with
  | nil => exact absurd rfl h
  | cons b l => rw [List.getLast?_cons_cons]

theorem mem_of_mem_dedupKeepLast [DecidableEq α] {r : α × γ} {l : List (α × γ)}
    (h : r ∈ dedupKeepLast l) : r ∈ l := by
  induction l with
  | nil => simp [dedupKeepLast] at h
  | cons a l ih =>
    rw [dedupKeepLast] at h
    by_cases hany : (l.any fun s => s.1 = a.1) = true
    · rw [if_pos hany] at h
      exact List.mem_cons_of_mem _ (ih h)
    · rw [if_neg hany] at h
      rcases List.mem_cons.mp h with rfl | h'
      · exact List.mem_cons_self _ _
      · exact List.mem_cons_of_mem _ (ih h')

theorem rowsAt_dedupKeepLast [DecidableEq α] (t : α) (l : List (α × γ)) :
    rowsAt t (dedupKeepLast l) = (rowsAt t l).getLast?.toList := by
  induction l with
  | nil => rfl
  | cons a l ih =>
    rw [dedupKeepLast, rowsAt_cons]
    by_cases hany : (l.any fun s => s.1 = a.1) = true
    · rw [if_pos hany]
      by_cases hat : a.1 = t
      · rw [if_pos hat, ih, getLast?_cons_of_ne_nil]
        rcases List.any_eq_true.mp hany with ⟨s, hs, hseq⟩
        intro hnil
        exact (rowsAt_eq_nil_iff.mp hnil) s hs (by rw [of_decide_eq_true hseq, hat])
      · rw [if_neg hat, ih]
    · rw [if_neg hany, rowsAt_cons, ih]
      have hnone : ∀ s ∈ l, ¬ s.1 = a.1 := by
        intro s hs hseq
        exact hany (List.any_eq_true.mpr ⟨s, hs, decide_eq_true hseq⟩)
      by_cases hat : a.1 = t
      · rw [if_pos hat, if_pos hat]
        have hnil : rowsAt t l = [] :=
          rowsAt_eq_nil_iff.mpr (fun s hs hseq => hnone s hs (hseq.trans hat.symm))
        rw [hnil]
        rfl
      · rw [if_neg hat, if_neg hat]

theorem pairwise_lt_dedupKeepLast [LinearOrder α] {l : List (α × γ)}
    (h : l.Pairwise (fun x y => x.1 ≤ y.1)) :
    StrictSortedTs (dedupKeepLast l) := by
  induction l with
  | nil => exact List.Pairwise.nil
  | cons a l ih =>
    rcases List.pairwise_cons.mp h with ⟨ha, hl⟩
    rw [dedupKeepLast]
    by_cases hany : (l.any fun s => s.1 = a.1) = true
    · rw [if_pos hany]
      exact ih hl
    · rw [if_neg hany]
      refine List.pairwise_cons.mpr ⟨?_, ih hl⟩
      intro s hs
      have hsl : s ∈ l := mem_of_mem_dedupKeepLast hs
      refine lt_of_le_of_ne (ha s hsl) ?_
      intro heq
      exact hany (List.any_eq_true.mpr ⟨s, hsl, decide_eq_true heq.symm⟩)

theorem rowsAt_reverse [DecidableEq α] (t : α) (l : List (α × γ)) :
    rowsAt t l.reverse = (rowsAt t l).reverse := by
  simp [rowsAt, List.filter_reverse]

theorem mem_of_mem_dedupKeepFirst [DecidableEq α] {r : α × γ} {l : List (α × γ)}
    (h : r ∈ dedupKeepFirst l) : r ∈ l := by
  rw [dedupKeepFirst, List.mem_reverse] at h
  exact List.mem_reverse.mp (mem_of_mem_dedupKeepLast h)

theorem rowsAt_dedupKeepFirst [DecidableEq α] (t : α) (l : List (α × γ)) :
    rowsAt t (dedupKeepFirst l) = (rowsAt t l).head?.toList := by
  rw [dedupKeepFirst, rowsAt_reverse, rowsAt_dedupKeepLast, rowsAt_reverse,
    List.getLast?_reverse]
  cases (rowsAt t l).head? <;> rfl

/-- The mirror image of `pairwise_lt_dedupKeepLast` for lists sorted in
decreasing timestamp order. -/
theorem pairwise_gt_dedupKeepLast [LinearOrder α] {l : List (α × γ)}
    (h : l.Pairwise (fun x y => y.1 ≤ x.1)) :
    (dedupKeepLast l).Pairwise (fun x y => y.1 < x.1) := by
  induction l with
  | nil => exact List.Pairwise.nil
  | cons a l ih =>
    rcases List.pairwise_cons.mp h with ⟨ha, hl⟩
    rw [dedupKeepLast]
    by_cases hany : (l.any fun s => s.1 = a.1) = true
    · rw [if_pos hany]
      exact ih hl
    · rw [if_neg hany]
      refine List.pairwise_cons.mpr ⟨?_, ih hl⟩
      intro s hs
      have hsl : s ∈ l := mem_of_mem_dedupKeepLast hs
      refine lt_of_le_of_ne (ha s hsl) ?_
      intro heq
      exact hany (List.any_eq_true.mpr ⟨s, hsl, decide_eq_true heq⟩)

theorem pairwise_lt_dedupKeepFirst [LinearOrder α] {l : List (α × γ)}
    (h : l.Pairwise (fun x y => x.1 ≤ y.1)) :
    StrictSortedTs (dedupKeepFirst l) := by
  rw [dedupKeepFirst, StrictSortedTs, List.pairwise_reverse]
  exact pairwise_gt_dedupKeepLast (List.pairwise_reverse.mpr h)

theorem dropna_cons_none {a : α × Option β} {l : List (α × Option β)}
    (h : a.2 = none) : dropna (a :: l) = dropna l := by
  simp [dropna, List.filterMap_cons, h]

theorem dropna_cons_some {a : α × Option β} {v : β} {l : List (α × Option β)}
    (h : a.2 = some v) : dropna (a :: l) = (a.1, v) :: dropna l := by
  simp [dropna, List.filterMap_cons, h]

theorem rowsAt_dropna [DecidableEq α] (t : α) (l : List (α × Option β)) :
    rowsAt t (dropna l) = dropna (rowsAt t l) := by
  induction l with
  | nil => rfl
  | cons a l ih =>
    cases hv : a.2 with
    | none =>
      rw [dropna_cons_none hv, ih, rowsAt_cons]
      by_cases hat : a.1 = t
      · rw [if_pos hat, dropna_cons_none hv]
      · rw [if_neg hat]
    | some v =>
      rw [dropna_cons_some hv]
      by_cases hat : a.1 = t
      · simp [rowsAt_cons, hat, dropna_cons_some hv, ih]
      · simp [rowsAt_cons, hat, ih]

theorem strictSorted_dropna [LinearOrder α] {l : List (α × Option β)}
    (h : StrictSortedTs l) : StrictSortedTs (dropna l) := by
  refine List.pairwise_filterMap.mpr ?_
  refine h.imp_of_mem ?_
  intro a b _ _ hab
  intro x hx y hy
  cases ha : a.2 with
  | none => simp [ha] at hx
  | some v =>
    cases hb : b.2 with
    | none => simp [hb] at hy
    | some w =>
      simp [ha] at hx
      simp [hb] at hy
      rw [← hx, ← hy]
      exact hab

theorem lookupTs_eq_head_rowsAt [DecidableEq α] (t : α) (l : List (α × γ)) :
    lookupTs t l = ((rowsAt t l).head?).map Prod.snd := by
  induction l with
  | nil => rfl
  | cons a l ih =>
    rw [lookupTs, rowsAt_cons]
    by_cases hat : a.1 = t
    · rw [if_pos hat, if_pos hat]
      rfl
    · rw [if_neg hat, if_neg hat, ih]

/-! ## Embedding of `woe.smard.api.download_smard_data`

The SMARD API is block-based: an index request yields block-start timestamps,
then one data request per block yields that block's `(timestamp, value)` series.
A block models one `<variable>_<region>_<resolution>_<timestamp>.json` payload;
`ok = false` models a non-200 data response (the source prints a warning and
skips the block).  Missing values (`null` in the JSON, `NaN` in the frame) are
modelled by `Option`. -/

/-- The two kinds of `RuntimeError` the download scripts distinguish (by
substring match on the message): the benign `"No data available after ..."`
signal, and everything else (transport errors, `"No timestamps available"`). -/
inductive FetchErr where
  | noDataAfter
  | other
deriving DecidableEq, Repr

/-- One SMARD data block. -/
structure Block (α β : Type) where
  start : α
  ok : Bool
  series : List (α × Option β)
deriving DecidableEq, Repr

/-- `timestamps = [ts for ts in timestamps if ts >= start_timestamp]` — blocks
whose start timestamp is at or after `since`; no filter when `since` is absent. -/
def keptBlocks [LinearOrder α] (blocks : List (Block α β)) (since : Option α) :
    List (Block α β) :=
  match since with
  | none => blocks
  | some s => blocks.filter (fun b => s ≤ b.start)

/-- Concatenation of the series of all blocks whose data request succeeded
(`all_timestamps` / `all_values` accumulation in the source). -/
def rawRows (blocks : List (Block α β)) : List (α × Option β) :=
  (blocks.filter (fun b => b.ok)).flatMap (fun b => b.series)

/-- `download_smard_data`: index request, `since` filter on block starts, block
data requests, then `sort_values('timestamp')`, `drop_duplicates(subset='timestamp')`
(keep first), `set_index`, `dropna()`. -/
def download_smard_data [LinearOrder α] (blocks : List (Block α β)) (since : Option α) :
    Except FetchErr (List (α × β)) :=
  if blocks.isEmpty then Except.error FetchErr.other
  else
    let kept := keptBlocks blocks since
    if since.isSome && kept.isEmpty then Except.error FetchErr.noDataAfter
    else Except.ok (dropna (dedupKeepFirst (sortByTs (rawRows kept))))

/-! ## Embedding of the incremental merge / update driver

`download_de_lu_prices` (01_download_smard_DE_prices.py) and the
`download_single_variable` functions of 01_download_smard_price_analysis_data.py,
06_download_smard_forecasts.py and 07_download_baseload_and_capacities.py are
structurally identical; they differ only in how the resumption point is
computed from the last timestamp (`step`) and in the configured variable.
The persisted parquet file is `Option (List (α × β))` (`none` = file absent or
unreadable); timestamps are generic over a linear order, as the control logic
uses only comparisons on `datetime` values. -/

/-- `get_last_timestamp`: `None` if the frame is absent or empty, else the
maximum timestamp. -/
def get_last_timestamp [LinearOrder α] (df : Option (List (α × γ))) : Option α :=
  df.bind maxTs

/-- The resumption point: the variable's origin date when there is no usable
baseline, otherwise the last timestamp advanced by `step`. -/
def startOf [LinearOrder α] (existing : Option (List (α × γ))) (origin : α)
    (step : α → α) : α :=
  match get_last_timestamp existing with
  | none => origin
  | some t => step t

/-- The merge step of every download script:
`pd.concat([existing_df, new_df])`, `sort_index()`,
`df[~df.index.duplicated(keep="last")]`. -/
def combine [LinearOrder α] (existing new : List (α × γ)) : List (α × γ) :=
  dedupKeepLast (sortByTs (existing ++ new))

/-- Result of one `download_single_variable` run: the persisted file content
afterwards, whether `download_smard_data` was called, and whether a
`RuntimeError` propagated out of the function. -/
structure UpdateOutcome (α β : Type) where
  state : Option (List (α × β))
  fetchCalled : Bool
  raised : Bool
deriving DecidableEq, Repr

/-- `download_single_variable` / `download_de_lu_prices`: determine baseline
(ignored under `force_full`), compute the resumption point, short-circuit when
it is not strictly before now, fetch, treat `"No data available after"` and an
empty frame as successful no-ops, re-raise other errors, else merge (when a
non-empty baseline exists) and persist. -/
def download_single_variable [LinearOrder α] (persisted : Option (List (α × β)))
    (forceFull : Bool) (now origin : α) (step : α → α) (blocks : List (Block α β)) :
    UpdateOutcome α β :=
  let existing := if forceFull then none else persisted
  let start := startOf existing origin step
  if now ≤ start then ⟨persisted, false, false⟩
  else
    match download_smard_data blocks (some start) with
    | Except.error FetchErr.noDataAfter => ⟨persisted, true, false⟩
    | Except.error FetchErr.other => ⟨persisted, true, true⟩
    | Except.ok new =>
      if new.isEmpty then ⟨persisted, true, false⟩
      else
        let combined :=
          match existing with
          | some ex => if ex.isEmpty then new else combine ex new
          | none => new
        ⟨some combined, true, false⟩

/-- The per-variable loop of `download_all_smard_data` (and
`download_all_forecasts`): `for config in hourly_configs:
download_single_variable(config, force_full)` with **no** surrounding
try/except, so a re-raised `RuntimeError` aborts the loop; files of the
remaining variables are left untouched.  Input: one (persisted file, upstream
blocks) pair per declared variable; output: the files afterwards and whether
the run was aborted by a propagated error. -/
def download_all_smard_data [LinearOrder α] (now origin : α) (step : α → α) :
    List (Option (List (α × β)) × List (Block α β)) →
      List (Option (List (α × β))) × Bool
  | [] => ([], false)
  | (prior, blocks) :: rest =>
    let o := download_single_variable prior false now origin step blocks
    if o.raised then (prior :: rest.map Prod.fst, true)
    else
      let r := download_all_smard_data now origin step rest
      (o.state :: r.1, r.2)

/-! ## Embedding of `download_capacities` (monthly bundle) -/

/-- The per-constituent loop of `download_capacities`: each capacity variable is
fetched from the bundle's single resumption point; a non-empty result is stored
under its column name (`all_data[col_name] = df[col_name]`), an empty result is
skipped, and **every** `RuntimeError` is caught and only printed, so the loop
always continues. -/
def capacityFetches [LinearOrder α] (varsUp : List (String × List (Block α β)))
    (start : α) : List (String × List (α × β)) :=
  varsUp.filterMap (fun cb =>
    match download_smard_data cb.2 (some start) with
    | Except.ok s => if s.isEmpty then none else some (cb.1, s)
    | Except.error _ => none)

/-- The sorted union of the timestamps of all fetched constituent series: the
index of `pd.DataFrame(all_data)` (each series is time-indexed; pandas aligns
them on the union of their indices). -/
def tsIndex [LinearOrder α] (allData : List (String × List (α × β))) : List α :=
  (dedupKeepFirst (sortByTs (allData.flatMap
    (fun cs => cs.2.map (fun r => (r.1, (() : Unit))))))).map Prod.fst

/-- `pd.DataFrame(all_data)`: one row per timestamp in the union index, carrying
the value of each constituent series that has this timestamp (absent entries
model `NaN` cells). -/
def bundleFrame [LinearOrder α] (allData : List (String × List (α × β))) :
    List (α × List (String × β)) :=
  (tsIndex allData).map (fun t =>
    (t, allData.filterMap (fun cs => (lookupTs t cs.2).map (fun v => (cs.1, v)))))

/-- Result of one `download_capacities` run (the function catches every fetch
error, so nothing propagates). -/
structure BundleOutcome (α β : Type) where
  state : Option (List (α × List (String × β)))
  fetchCalled : Bool
deriving DecidableEq, Repr

/-- `download_capacities`: one resumption point from the bundle's own maximum
timestamp (the source instantiates `step` with the monthly
`+32 days, replace(day=1, ...)` rule), then the per-constituent fetch loop,
then the same merge-and-persist step as the single-variable scripts, applied to
whole bundle rows. -/
def download_capacities [LinearOrder α]
    (persisted : Option (List (α × List (String × β)))) (forceFull : Bool)
    (now origin : α) (step : α → α) (varsUp : List (String × List (Block α β))) :
    BundleOutcome α β :=
  let existing := if forceFull then none else persisted
  let start := startOf existing origin step
  if now ≤ start then ⟨persisted, false⟩
  else
    let allData := capacityFetches varsUp start
    if allData.isEmpty then ⟨persisted, true⟩
    else
      let newDf := bundleFrame allData
      let combined :=
        match existing with
        | some ex => if ex.isEmpty then newDf else combine ex newDf
        | none => newDf
      ⟨some combined, true⟩

/-! ## Calendar layer: `datetime` / `timedelta` arithmetic of the scripts

Timezone-naive timestamps at minute precision (seconds and microseconds are
always zero in this repository's data and are zeroed by the `replace` call the
scripts use). -/

/-- A timezone-naive `datetime` (year, month 1..12, day 1..31, hour, minute). -/
structure DT where
  year : Nat
  month : Nat
  day : Nat
  hour : Nat
  minute : Nat
deriving DecidableEq, Repr

/-- Gregorian leap-year rule. -/
def isLeap (y : Nat) : Bool :=
  (y % 4 == 0 && y % 100 != 0) || y % 400 == 0

/-- Number of days in month `m` of year `y`. -/
def daysInMonth (y m : Nat) : Nat :=
  if m == 2 then (if isLeap y then 29 else 28)
  else if m == 4 || m == 6 || m == 9 || m == 11 then 30 else 31

/-- Advance a timestamp by one calendar day (time of day unchanged). -/
def succDay (t : DT) : DT :=
  if t.day < daysInMonth t.year t.month then
    { t with day := t.day + 1 }
  else if t.month < 12 then
    { t with month := t.month + 1, day := 1 }
  else
    { t with year := t.year + 1, month := 1, day := 1 }

/-- `t + timedelta(days := n)`. -/
def addDays : Nat → DT → DT
  | 0, t => t
  | n + 1, t => addDays n (succDay t)

/-- `t + timedelta(minutes := n)`. -/
def addMinutes (n : Nat) (t : DT) : DT :=
  let tot := t.hour * 60 + t.minute + n
  addDays (tot / 1440) { t with hour := tot % 1440 / 60, minute := tot % 1440 % 60 }

/-- `t + timedelta(hours := n)`. -/
def addHours (n : Nat) (t : DT) : DT :=
  addMinutes (n * 60) t

/-- `t.replace(day=1, hour=0, minute=0, second=0, microsecond=0)`. -/
def replaceDay1 (t : DT) : DT :=
  { t with day := 1, hour := 0, minute := 0 }

/-- `woe.smard.config.Resolution`. -/
inductive Res where
  | hour
  | quarterhour
  | day
  | week
  | month
  | year
deriving DecidableEq, Repr

/-- `woe.smard.config.DEFAULT_START_DATE = datetime(2015, 1, 1)`. -/
def DEFAULT_START_DATE : DT := ⟨2015, 1, 1, 0, 0⟩

/-- `get_start_time` of `01_download_smard_price_analysis_data.py` (the same
branch is inlined in `download_single_variable` of
`07_download_baseload_and_capacities.py`): origin when there is no baseline;
for monthly resolution `last + timedelta(days=32)` then
`replace(day=1, hour=0, minute=0, second=0, microsecond=0)`; otherwise
`last + timedelta(hours=1)`. -/
def get_start_time (last : Option DT) (resolution : Res) : DT :=
  match last with
  | none => DEFAULT_START_DATE
  | some t =>
    if resolution = Res.month then replaceDay1 (addDays 32 t)
    else addHours 1 t

/-- `get_start_time` of `06_download_smard_forecasts.py`: it takes no
resolution argument and always advances by one hour, although every
`DownloadConfig` in that script uses `Resolution.QUARTER_HOUR`. -/
def get_start_time_forecasts (last : Option DT) : DT :=
  match last with
  | none => DEFAULT_START_DATE
  | some t => addHours 1 t

/-- The resolution every `DownloadConfig` of `06_download_smard_forecasts.py`
declares (`resolution=Resolution.QUARTER_HOUR.value`). -/
def forecastConfigResolution : Res := Res.quarterhour

/-- The spec's normalized monthly-resumption rule (§4.2: "the first day of the
month following the last persisted month, at time 00:00"), stated from the
spec's words for comparison with the `+32 days` computation of the source. -/
def nextMonthStart (y m : Nat) : DT :=
  if m = 12 then ⟨y + 1, 1, 1, 0, 0⟩ else ⟨y, m + 1, 1, 0, 0⟩

/-- Truncation to midnight: the effect of `strftime("%Y-%m-%d")`, which formats
a timestamp as a bare date (any time of day is dropped). -/
def dateOnly (t : DT) : DT :=
  { t with hour := 0, minute := 0 }

/-- The inline resumption computation of `download_ttf_prices`
(`02_download_ttf_gas.py`, lines 66-72), the daily TTF gas series: `none`
(download the maximum available history) when there is no usable baseline,
otherwise `(last_date + pd.Timedelta(days=1)).strftime("%Y-%m-%d")` — one
calendar day after the last persisted daily record, as a date. -/
def ttf_start_date (last : Option DT) : Option DT :=
  match last with
  | none => none
  | some t => some (dateOnly (addDays 1 t))

/-! ## Calendar lemmas -/

theorem daysInMonth_ge (y m : Nat) : 28 ≤ daysInMonth y m := by
  unfold daysInMonth
  split
  · split <;> omega
  · split <;> omega

theorem daysInMonth_le (y m : Nat) : daysInMonth y m ≤ 31 := by
  unfold daysInMonth
  split
  · split <;> omega
  · split <;> omega

theorem addDays_add (a b : Nat) (t : DT) :
    addDays (a + b) t = addDays b (addDays a t) := by
  induction a generalizing t with
  | zero => simp [addDays]
  | succ a ih =>
    have h : a + 1 + b = (a + b) + 1 := by omega
    rw [h, addDays, addDays, ih]

theorem addDays_within (k : Nat) (y m d h mi : Nat)
    (hk : d + k ≤ daysInMonth y m) :
    addDays k ⟨y, m, d, h, mi⟩ = ⟨y, m, d + k, h, mi⟩ := by
  induction k generalizing d with
  | zero => rfl
  | succ k ih =>
    have hd : d < daysInMonth y m := by omega
    have hs : succDay ⟨y, m, d, h, mi⟩ = ⟨y, m, d + 1, h, mi⟩ := by
      simp [succDay, hd]
    rw [addDays, hs, ih (d + 1) (by omega)]
    have : d + 1 + k = d + (k + 1) := by omega
    rw [this]

theorem succDay_monthEnd (y m h mi : Nat) :
    succDay ⟨y, m, daysInMonth y m, h, mi⟩ =
      if m < 12 then ⟨y, m + 1, 1, h, mi⟩ else ⟨y + 1, 1, 1, h, mi⟩ := by
  simp [succDay]

theorem succDay_hour (t : DT) : (succDay t).hour = t.hour := by
  unfold succDay
  split
  · rfl
  · split <;> rfl

theorem succDay_minute (t : DT) : (succDay t).minute = t.minute := by
  unfold succDay
  split
  · rfl
  · split <;> rfl

theorem dateOnly_eq_self {t : DT} (h0 : t.hour = 0) (hm : t.minute = 0) :
    dateOnly t = t := by
  obtain ⟨y, m, d, h, mi⟩ := t
  have h0' : h = 0 := h0
  have hm' : mi = 0 := hm
  subst h0'
  subst hm'
  rfl

/-! ## Claim theorems: resumption-point computation -/

/-- C4: Monthly resumption normalization.  For every non-empty monthly baseline
whose maximum timestamp is the first day of a month at 00:00 (as monthly SMARD
records are), the source's `last + timedelta(days=32)` followed by
`replace(day=1, hour=0, minute=0, second=0, microsecond=0)` equals the
normalized rule "first day of the month following the last persisted month, at
time 00:00" — in particular 2024-01-01 resumes at 2024-02-01T00:00 and
2024-12-01 at 2025-01-01T00:00. -/
theorem claim_C4_monthly_resumption_normalized (y m : Nat)
    (hm1 : 1 ≤ m) (hm2 : m ≤ 12) :
    get_start_time (some ⟨y, m, 1, 0, 0⟩) Res.month = nextMonthStart y m := by
  have hstep : get_start_time (some ⟨y, m, 1, 0, 0⟩) Res.month
      = replaceDay1 (addDays 32 ⟨y, m, 1, 0, 0⟩) := by
    simp [get_start_time]
  rw [hstep]
  set D := daysInMonth y m with hD
  have hD1 : 28 ≤ D := daysInMonth_ge y m
  have hD2 : D ≤ 31 := daysInMonth_le y m
  have h32 : (32 : Nat) = (D - 1) + 1 + (32 - D) := by omega
  rw [h32, addDays_add, addDays_add]
  have hwithin : addDays (D - 1) ⟨y, m, 1, 0, 0⟩ = ⟨y, m, D, 0, 0⟩ := by
    have := addDays_within (D - 1) y m 1 0 0 (by omega)
    rw [this]
    congr 1
    omega
  rw [hwithin]
  have hone : addDays 1 ⟨y, m, D, 0, 0⟩ = succDay ⟨y, m, D, 0, 0⟩ := rfl
  rw [hone, hD, succDay_monthEnd]
  by_cases hm12 : m < 12
  · rw [if_pos hm12]
    have h28 : 28 ≤ daysInMonth y (m + 1) := daysInMonth_ge y (m + 1)
    have := addDays_within (32 - D) y (m + 1) 1 0 0 (by omega)
    rw [this]
    rw [nextMonthStart, if_neg (by omega : ¬ m = 12)]
    simp [replaceDay1]
  · rw [if_neg hm12]
    have hm : m = 12 := by omega
    have h28 : 28 ≤ daysInMonth (y + 1) 1 := daysInMonth_ge (y + 1) 1
    have := addDays_within (32 - D) (y + 1) 1 1 0 0 (by omega)
    rw [this]
    simp [replaceDay1, nextMonthStart, hm]

/-- Witness for C4 at the spec's two instances (January and December maxima). -/
theorem claim_C4_witness :
    get_start_time (some ⟨2024, 1, 1, 0, 0⟩) Res.month = ⟨2024, 2, 1, 0, 0⟩ ∧
    get_start_time (some ⟨2024, 12, 1, 0, 0⟩) Res.month = ⟨2025, 1, 1, 0, 0⟩ := by
  constructor
  · rw [claim_C4_monthly_resumption_normalized 2024 1 (by decide) (by decide)]
    rfl
  · rw [claim_C4_monthly_resumption_normalized 2024 12 (by decide) (by decide)]
    rfl

/-- C5 counterexample: the claim requires a 15-minute resumption step for
quarter-hourly series, but the forecasts script — whose every download config
declares quarter-hourly resolution — advances the maximum baseline timestamp
2024-01-01T05:00 by one hour, to 06:00 instead of 05:15. -/
theorem claim_C5_counterexample :
    forecastConfigResolution = Res.quarterhour ∧
    get_start_time_forecasts (some ⟨2024, 1, 1, 5, 0⟩) = ⟨2024, 1, 1, 6, 0⟩ ∧
    get_start_time_forecasts (some ⟨2024, 1, 1, 5, 0⟩) ≠ addMinutes 15 ⟨2024, 1, 1, 5, 0⟩ := by
  refine ⟨rfl, by decide, by decide⟩

/-- C5 (amended): for every non-empty baseline the computed resumption point is
the maximum persisted timestamp advanced by exactly one step, where the step is
one hour for hourly series — but also one hour, not 15 minutes, for the
quarter-hourly forecast series, whose script has no 15-minute branch — one
calendar day for the daily TTF gas series (whose records sit at midnight), and
the normalized first-of-next-month rule for monthly series (proved at C4); in
particular an hourly baseline with maximum 2024-01-01T05:00 resumes at
2024-01-01T06:00. -/
theorem claim_C5_amended_resolution_steps :
    (∀ t : DT, get_start_time_forecasts (some t) = addHours 1 t) ∧
    (∀ (t : DT) (r : Res), r ≠ Res.month → get_start_time (some t) r = addHours 1 t) ∧
    (get_start_time (some ⟨2024, 1, 1, 5, 0⟩) Res.hour = ⟨2024, 1, 1, 6, 0⟩) ∧
    (∀ t : DT, t.hour = 0 → t.minute = 0 →
      ttf_start_date (some t) = some (addDays 1 t)) := by
  refine ⟨fun t => rfl, fun t r hr => by simp [get_start_time, hr], by decide, ?_⟩
  intro t h0 hm
  show some (dateOnly (addDays 1 t)) = some (addDays 1 t)
  have ha : addDays 1 t = succDay t := rfl
  rw [ha, dateOnly_eq_self (by rw [succDay_hour, h0]) (by rw [succDay_minute, hm])]

/-- Witness for C5 (amended) at the hourly and daily instances. -/
theorem claim_C5_witness :
    get_start_time (some ⟨2024, 1, 1, 5, 0⟩) Res.hour = addHours 1 ⟨2024, 1, 1, 5, 0⟩ ∧
    ttf_start_date (some ⟨2024, 1, 5, 0, 0⟩) = some (addDays 1 ⟨2024, 1, 5, 0, 0⟩) :=
  ⟨claim_C5_amended_resolution_steps.2.1 ⟨2024, 1, 1, 5, 0⟩ Res.hour (by decide),
   claim_C5_amended_resolution_steps.2.2.2 ⟨2024, 1, 5, 0, 0⟩ rfl rfl⟩

/-! ## Merge-level lemmas -/

theorem strictSorted_combine [LinearOrder α] (ex new : List (α × γ)) :
    StrictSortedTs (combine ex new) :=
  pairwise_lt_dedupKeepLast (pairwise_le_sortByTs _)

theorem rowsAt_combine [LinearOrder α] (t : α) (ex new : List (α × γ)) :
    rowsAt t (combine ex new) = (rowsAt t ex ++ rowsAt t new).getLast?.toList := by
  rw [combine, rowsAt_dedupKeepLast, rowsAt_sortByTs, rowsAt_append]

theorem rowsAt_of_strictSorted_mem [LinearOrder α] {l : List (α × γ)} {t : α} {v : γ}
    (hs : StrictSortedTs l) (hm : (t, v) ∈ l) : rowsAt t l = [(t, v)] := by
  induction l with
  | nil => simp at hm
  | cons a l ih =>
    rcases List.pairwise_cons.mp hs with ⟨ha, hl⟩
    rcases List.mem_cons.mp hm with heq | hmem
    · subst heq
      rw [rowsAt_cons, if_pos rfl]
      have hnil : rowsAt t l = [] := by
        refine rowsAt_eq_nil_iff.mpr ?_
        intro s hs' hst
        have hlt := ha s hs'
        rw [hst] at hlt
        exact lt_irrefl t hlt
      rw [hnil]
    · have hat : ¬ a.1 = t := by
        intro hh
        have hlt := ha _ hmem
        rw [hh] at hlt
        exact lt_irrefl t hlt
      rw [rowsAt_cons, if_neg hat]
      exact ih hl hmem

theorem download_ok_rows [LinearOrder α] {blocks : List (Block α β)} {since : Option α}
    {r : List (α × β)} (h : download_smard_data blocks since = Except.ok r) :
    r = dropna (dedupKeepFirst (sortByTs (rawRows (keptBlocks blocks since)))) := by
  simp only [download_smard_data] at h
  split at h
  · exact absurd h (by simp)
  · split at h
    · exact absurd h (by simp)
    · injection h with h
      exact h.symm

theorem strictSorted_download [LinearOrder α] {blocks : List (Block α β)}
    {since : Option α} {r : List (α × β)}
    (h : download_smard_data blocks since = Except.ok r) : StrictSortedTs r := by
  rw [download_ok_rows h]
  exact strictSorted_dropna (pairwise_lt_dedupKeepFirst (pairwise_le_sortByTs _))

theorem perm_insertByTs [LinearOrder α] (r : α × γ) (l : List (α × γ)) :
    (insertByTs r l).Perm (r :: l) := by
  induction l with
  | nil => exact List.Perm.refl _
  | cons a l ih =>
    rw [insertByTs]
    by_cases h : r.1 ≤ a.1
    · rw [if_pos h]
    · rw [if_neg h]
      exact (List.Perm.cons a ih).trans (List.Perm.swap r a l)

theorem perm_sortByTs [LinearOrder α] (l : List (α × γ)) : l.Perm (sortByTs l) := by
  induction l with
  | nil => exact List.Perm.refl _
  | cons r l ih =>
    rw [sortByTs]
    exact (List.Perm.cons r ih).trans (perm_insertByTs r (sortByTs l)).symm

/-- The executable stable sort is one admissible output of the unspecified-kind
pandas sort. -/
theorem sortedPermOf_sortByTs [LinearOrder α] (l : List (α × γ)) :
    SortedPermOf l (sortByTs l) :=
  ⟨perm_sortByTs l, pairwise_le_sortByTs l⟩

theorem mem_of_lookupTs [DecidableEq α] {t : α} {v : γ} {l : List (α × γ)}
    (h : lookupTs t l = some v) : (t, v) ∈ l := by
  induction l with
  | nil => exact Option.noConfusion h
  | cons a l ih =>
    obtain ⟨a1, a2⟩ := a
    rw [lookupTs] at h
    by_cases hat : a1 = t
    · rw [if_pos hat] at h
      injection h with h
      subst hat
      subst h
      exact List.mem_cons_self _ _
    · rw [if_neg hat] at h
      exact List.mem_cons_of_mem _ (ih h)

theorem mem_dropna {t : α} {v : β} {l : List (α × Option β)} :
    (t, v) ∈ dropna l ↔ (t, some v) ∈ l := by
  rw [dropna, List.mem_filterMap]
  constructor
  · rintro ⟨⟨a1, a2⟩, ha, hfa⟩
    cases a2 with
    | none => exact Option.noConfusion hfa
    | some w =>
      injection hfa with hfa
      injection hfa with h1 h2
      subst h1
      subst h2
      exact ha
  · intro h
    exact ⟨(t, some v), h, rfl⟩

theorem exists_getLast? {l : List γ} (h : l ≠ []) :
    ∃ b, l.getLast? = some b ∧ b ∈ l := by
  induction l with
  | nil => exact absurd rfl h
  | cons a l ih =>
    cases l with
    | nil => exact ⟨a, rfl, List.mem_cons_self _ _⟩
    | cons c m =>
      obtain ⟨b, hb, hmem⟩ := ih (by simp)
      refine ⟨b, ?_, List.mem_cons_of_mem _ hmem⟩
      rw [List.getLast?_cons_cons]
      exact hb

/-- Under the stable representative sort, the merge keeps the fetched value at
every timestamp the fetched frame covers. -/
theorem lookupTs_combine_keep_last [LinearOrder α] {ex new : List (α × γ)} {t : α}
    {vnew : γ} (hnew : (t, vnew) ∈ new) (hsorted : StrictSortedTs new) :
    lookupTs t (combine ex new) = some vnew := by
  rw [lookupTs_eq_head_rowsAt, rowsAt_combine, rowsAt_of_strictSorted_mem hsorted hnew,
    List.getLast?_concat]
  rfl

/-- Under the stable representative sort, the fetch post-processing keeps the
value of the first-listed occurrence of each timestamp and drops it when that
occurrence's value is missing. -/
theorem lookupTs_fetch_pipeline [LinearOrder α] (raw : List (α × Option β)) (t : α) :
    lookupTs t (dropna (dedupKeepFirst (sortByTs raw)))
      = ((rowsAt t raw).head?).bind Prod.snd := by
  rw [lookupTs_eq_head_rowsAt, rowsAt_dropna, rowsAt_dedupKeepFirst, rowsAt_sortByTs]
  cases hr : (rowsAt t raw).head? with
  | none => rfl
  | some a =>
    cases hv : a.2 with
    | none =>
      show ((dropna [a]).head?).map Prod.snd = (some a).bind Prod.snd
      rw [dropna_cons_none hv]
      simp [hv, dropna]
    | some v =>
      show ((dropna [a]).head?).map Prod.snd = (some a).bind Prod.snd
      rw [dropna_cons_some hv]
      simp [hv]

instance strictSortedTs_decidable {α γ : Type} [LT α]
    [DecidableRel (fun a b : α => a < b)] (l : List (α × γ)) :
    Decidable (StrictSortedTs l) := by
  unfold StrictSortedTs
  infer_instance

instance except_decEq {ε σ : Type} [DecidableEq ε] [DecidableEq σ] :
    DecidableEq (Except ε σ) := fun a b =>
  match a, b with
  | Except.error e, Except.error f =>
    if h : e = f then isTrue (by rw [h])
    else isFalse (fun hh => h (by injection hh))
  | Except.ok x, Except.ok y =>
    if h : x = y then isTrue (by rw [h])
    else isFalse (fun hh => h (by injection hh))
  | Except.error _, Except.ok _ => isFalse (fun hh => Except.noConfusion hh)
  | Except.ok _, Except.error _ => isFalse (fun hh => Except.noConfusion hh)

/-! ## Claim theorems: merge engine -/

/-- C1: Idempotence of update.  If the fetch step yields no new records — the
fetch raises the `"No data available after"` condition or returns an empty
frame — then the update leaves the persisted dataset exactly as it was (the
scripts return before `to_parquet` is ever called); hence a second run in
immediate succession with no new upstream data leaves the dataset's records
unchanged. -/
theorem claim_C1_idempotent_no_new_data [LinearOrder α]
    (persisted : Option (List (α × β))) (now origin : α) (step : α → α)
    (blocks : List (Block α β))
    (h : download_smard_data blocks (some (startOf persisted origin step))
          = Except.error FetchErr.noDataAfter ∨
         download_smard_data blocks (some (startOf persisted origin step))
          = Except.ok []) :
    (download_single_variable persisted false now origin step blocks).state
      = persisted := by
  have hred : (if (false : Bool) then none else persisted) = persisted := rfl
  simp only [download_single_variable, hred]
  split
  · rfl
  · rcases h with h | h
    · rw [h]
    · rw [h]
      rfl

/-- Witness for C1: a baseline whose resumption point filters out every
upstream block, so the fetch signals "no data available after". -/
theorem claim_C1_witness :
    (download_single_variable (some [((1 : Nat), (5 : Int))]) false 10 0
        (fun t => t + 1) [⟨0, true, [(0, some 1)]⟩]).state
      = some [(1, 5)] :=
  claim_C1_idempotent_no_new_data _ _ _ _ _ (Or.inl (by decide))

/-- C2 counterexample to the claim as stated: with a prior persisted state that
already contains a duplicate timestamp and a fetch that yields no new data, the
update succeeds without writing, so the persisted series afterwards still has
the duplicate — the invariant does not hold for *every* prior state. -/
theorem claim_C2_counterexample :
    (download_single_variable (some [((1 : Nat), (10 : Int)), (1, 20)]) false 10 0
        (fun t => t + 1) [⟨0, true, [(0, some 1)]⟩]).raised = false ∧
    (download_single_variable (some [((1 : Nat), (10 : Int)), (1, 20)]) false 10 0
        (fun t => t + 1) [⟨0, true, [(0, some 1)]⟩]).state
      = some [(1, 10), (1, 20)] ∧
    ¬ StrictSortedTs [((1 : Nat), (10 : Int)), (1, 20)] := by
  decide

/-- C2 (amended): after every run that does not propagate an error, the
persisted dataset is either exactly the prior state (short-circuit, no-data,
empty fetch — so the invariant is preserved whenever the prior state satisfied
it) or a freshly written series with strictly increasing, duplicate-free
timestamps — for every prior persisted state, including adversarial ones, and
every upstream response, including overlapping ones. -/
theorem claim_C2_amended_unchanged_or_strict [LinearOrder α]
    (persisted : Option (List (α × β))) (forceFull : Bool) (now origin : α)
    (step : α → α) (blocks : List (Block α β)) :
    (download_single_variable persisted forceFull now origin step blocks).state
        = persisted ∨
    ∃ s, (download_single_variable persisted forceFull now origin step blocks).state
        = some s ∧ StrictSortedTs s := by
  simp only [download_single_variable]
  generalize (if forceFull then none else persisted) = ex0
  split
  · exact Or.inl rfl
  · split
    · exact Or.inl rfl
    · exact Or.inl rfl
    · rename_i new heq
      split
      · exact Or.inl rfl
      · cases ex0 with
        | none => exact Or.inr ⟨new, rfl, strictSorted_download heq⟩
        | some ex =>
          by_cases he : ex.isEmpty
          · refine Or.inr ⟨new, ?_, strictSorted_download heq⟩
            show some (if ex.isEmpty = true then new else combine ex new) = some new
            rw [if_pos he]
          · refine Or.inr ⟨combine ex new, ?_, strictSorted_combine _ _⟩
            show some (if ex.isEmpty = true then new else combine ex new)
              = some (combine ex new)
            rw [if_neg he]

/-- C3 counterexample to the claim as stated: the merge sorts the concatenated
frame with pandas' default `kind='quicksort'`, which is documented as not
stable, so on baseline `[(1, 10)]` and fetched frame `[(1, 20)]` the list
`[(1, 20), (1, 10)]` is an admissible sort output of the concatenation (both
rows tie at timestamp 1), and `duplicated(keep="last")` then retains the stale
baseline value 10 instead of the fetched 20 — the program does not guarantee
that the merged result contains `(t, v_new)`. -/
theorem claim_C3_counterexample :
    MergeOutcome [((1 : Nat), (10 : Int))] [(1, 20)] [(1, 10)] ∧
    lookupTs 1 [((1 : Nat), (10 : Int))] = some 10 ∧
    ((10 : Int) ≠ 20) :=
  ⟨⟨[(1, 20), (1, 10)], ⟨by decide, by decide⟩, by decide⟩, by decide, by decide⟩

/-- C3 (amended): for every admissible result of the merge step (concat, sort
of unspecified tie order, keep-last dedup), the merged result has exactly one
row at each timestamp, and at a timestamp present in both baseline and fetched
frame the surviving value is that of one of the tied rows — which one is
unspecified, because `sort_index()` uses pandas' unstable default quicksort;
under the tie-order-preserving representative sort the freshly fetched value
`v_new` wins. -/
theorem claim_C3_amended_newest_wins_up_to_ties [LinearOrder α]
    {ex new r : List (α × γ)} {t : α} {vold vnew : γ}
    (hout : MergeOutcome ex new r) (_hold : (t, vold) ∈ ex) (hnew : (t, vnew) ∈ new)
    (hsorted : StrictSortedTs new) :
    StrictSortedTs r ∧
    (∃ v, lookupTs t r = some v ∧ (t, v) ∈ ex ++ new) ∧
    lookupTs t (combine ex new) = some vnew := by
  obtain ⟨l', ⟨hperm, hsle⟩, hr⟩ := hout
  subst hr
  refine ⟨pairwise_lt_dedupKeepLast hsle, ?_, lookupTs_combine_keep_last hnew hsorted⟩
  have hmem' : (t, vnew) ∈ l' :=
    hperm.mem_iff.mp (List.mem_append.mpr (Or.inr hnew))
  have hmemrows : (t, vnew) ∈ rowsAt t l' :=
    List.mem_filter.mpr ⟨hmem', by simp⟩
  obtain ⟨b, hb, hbmem⟩ := exists_getLast? (List.ne_nil_of_mem hmemrows)
  obtain ⟨b1, b2⟩ := b
  have hb1 : b1 = t := by
    have := (List.mem_filter.mp hbmem).2
    simpa using this
  subst hb1
  refine ⟨b2, ?_, ?_⟩
  · rw [lookupTs_eq_head_rowsAt, rowsAt_dedupKeepLast, hb]
    rfl
  · exact hperm.mem_iff.mpr (List.mem_of_mem_filter hbmem)

/-- Witness for C3 (amended): on baseline `[(1, 10)]` and fetched frame
`[(1, 20)]`, the admissible outcome `[(1, 20)]` is strict, its surviving value
20 is one of the tied values, and the representative stable merge keeps the
fetched 20. -/
theorem claim_C3_witness :
    lookupTs 1 (combine [((1 : Nat), (10 : Int))] [(1, 20)]) = some 20 ∧
    StrictSortedTs [((1 : Nat), (20 : Int))] := by
  have h := @claim_C3_amended_newest_wins_up_to_ties Nat Int _
      [(1, 10)] [(1, 20)] [(1, 20)] 1 10 20
      ⟨[(1, 10), (1, 20)], ⟨by decide, by decide⟩, by decide⟩
      (by decide) (by decide) (by decide)
  exact ⟨h.2.2, h.1⟩

/-- C8: Short-circuit when up to date.  Whenever the computed resumption point
is at or after the wall-clock time at run start, the update returns before any
fetch call: no fetch happens, nothing is raised, and the persisted dataset is
exactly the prior one. -/
theorem claim_C8_short_circuit [LinearOrder α] (persisted : Option (List (α × β)))
    (forceFull : Bool) (now origin : α) (step : α → α) (blocks : List (Block α β))
    (h : now ≤ startOf (if forceFull then none else persisted) origin step) :
    download_single_variable persisted forceFull now origin step blocks
      = ⟨persisted, false, false⟩ := by
  simp only [download_single_variable]
  rw [if_pos h]

/-- Witness for C8: baseline max 1 with hourly step gives resumption point 2,
which is not before a clock reading 0. -/
theorem claim_C8_witness :
    download_single_variable (some [((1 : Nat), (5 : Int))]) false 0 0
        (fun t => t + 1) [⟨0, true, [(0, some 1)]⟩]
      = ⟨some [(1, 5)], false, false⟩ :=
  claim_C8_short_circuit _ _ _ _ _ _ (by decide)

/-- C10 counterexample to the claim as stated: `sort_values('timestamp')` uses
pandas' unstable default quicksort, so on a downloaded block listing timestamp
2 first with value 5 and then with value 9, the reversed tie order is an
admissible sort output, after which `drop_duplicates` (keep first) retains the
*second*-listed value 9 — the program does not guarantee that the returned
series keeps the first-listed occurrence. -/
theorem claim_C10_counterexample :
    FetchFrameOutcome
      (rawRows (keptBlocks
        [⟨(0 : Nat), true, [((2 : Nat), some (5 : Int)), (2, some 9)]⟩] none))
      [(2, 9)] ∧
    lookupTs 2 [((2 : Nat), (9 : Int))] = some 9 ∧
    ((9 : Int) ≠ 5) :=
  ⟨⟨[(2, some 9), (2, some 5)], ⟨by decide, by decide⟩, by decide⟩, by decide, by decide⟩

/-- C10 (amended): for every admissible returned frame of the fetch
post-processing (sort of unspecified tie order, `drop_duplicates` keep-first,
`dropna`), the frame has exactly one row per timestamp and every value it
stores at a timestamp is the *present* value of one of the downloaded rows at
that timestamp — rows whose value is missing never contribute output; which
occurrence survives at a duplicated timestamp is unspecified, and under the
tie-order-preserving representative sort it is the first-listed occurrence
(with the timestamp absent when that occurrence's value is missing), the
opposite of the merge's keep-last rule. -/
theorem claim_C10_amended_fetch_dedup [LinearOrder α] {blocks : List (Block α β)}
    {since : Option α} {r : List (α × β)}
    (hout : FetchFrameOutcome (rawRows (keptBlocks blocks since)) r) :
    StrictSortedTs r ∧
    (∀ t v, lookupTs t r = some v → (t, some v) ∈ rawRows (keptBlocks blocks since)) ∧
    (∀ (t : α) (r' : List (α × β)), download_smard_data blocks since = Except.ok r' →
      lookupTs t r'
        = ((rowsAt t (rawRows (keptBlocks blocks since))).head?).bind Prod.snd) := by
  obtain ⟨l', ⟨hperm, hsle⟩, hr⟩ := hout
  subst hr
  refine ⟨strictSorted_dropna (pairwise_lt_dedupKeepFirst hsle), ?_, ?_⟩
  · intro t v hv
    exact hperm.mem_iff.mpr
      (mem_of_mem_dedupKeepFirst (mem_dropna.mp (mem_of_lookupTs hv)))
  · intro t r' h
    rw [download_ok_rows h, lookupTs_fetch_pipeline]

/-- Witness for C10 (amended): timestamp 2 appears twice in the downloaded
block with values 5 (first-listed) and 9; the representative stable pipeline
returns 5 at timestamp 2, and 5 is a present value of a downloaded row at 2. -/
theorem claim_C10_witness :
    ((2 : Nat), some (5 : Int)) ∈ rawRows (keptBlocks
        [⟨(0 : Nat), true, [((2 : Nat), some (5 : Int)), (1, some 7), (2, some 9)]⟩]
        none) ∧
    lookupTs 2 [((1 : Nat), (7 : Int)), (2, 5)]
      = ((rowsAt 2 (rawRows (keptBlocks
          [⟨(0 : Nat), true, [((2 : Nat), some (5 : Int)), (1, some 7), (2, some 9)]⟩]
          none))).head?).bind Prod.snd := by
  have h := @claim_C10_amended_fetch_dedup Nat Int _
      [⟨(0 : Nat), true, [((2 : Nat), some (5 : Int)), (1, some 7), (2, some 9)]⟩]
      none [(1, 7), (2, 5)]
      ⟨[(1, some 7), (2, some 5), (2, some 9)], ⟨by decide, by decide⟩, by decide⟩
  exact ⟨h.2.1 2 5 (by decide), h.2.2 2 [(1, 7), (2, 5)] (by decide)⟩

/-- C7 counterexample to the claim as stated: when the forced fetch from the
origin date yields no data, the script returns before writing, so the persisted
dataset afterwards is the old baseline — two different baselines give two
different outcomes under identical upstream data, so the result is not
independent of the baseline's content. -/
theorem claim_C7_counterexample :
    (download_single_variable (some [((9 : Nat), (9 : Int))]) true 10 5
        (fun t => t + 1) [⟨3, true, [(3, some 1)]⟩]).state
      ≠ (download_single_variable (some [((8 : Nat), (8 : Int))]) true 10 5
        (fun t => t + 1) [⟨3, true, [(3, some 1)]⟩]).state := by
  decide

/-- C7 (amended): whenever the forced fetch from the variable's fixed origin
date succeeds with a non-empty frame, the persisted dataset is exactly that
fetched frame, independent of the baseline's content (under `force_full` the
baseline is never loaded, so the merge branch is skipped); if the forced fetch
returns no data, the old dataset is left in place unchanged. -/
theorem claim_C7_amended_force_full [LinearOrder α]
    (persisted : Option (List (α × β))) (now origin : α) (step : α → α)
    (blocks : List (Block α β)) (new : List (α × β))
    (hnow : origin < now)
    (hok : download_smard_data blocks (some origin) = Except.ok new)
    (hne : ¬ new.isEmpty = true) :
    (download_single_variable persisted true now origin step blocks).state
      = some new := by
  simp only [download_single_variable, if_true]
  have h0 : startOf (none : Option (List (α × β))) origin step = origin := rfl
  rw [h0, if_neg (not_le.mpr hnow), hok]
  show (if new.isEmpty = true
      then ({ state := persisted, fetchCalled := true, raised := false } : UpdateOutcome α β)
      else { state := some new, fetchCalled := true, raised := false }).state = some new
  rw [if_neg hne]

/-- Witness for C7 (amended): with a non-empty baseline, a forced run whose
fetch from the origin succeeds persists exactly the fetched data. -/
theorem claim_C7_witness :
    (download_single_variable (some [((9 : Nat), (9 : Int))]) true 10 0
        (fun t => t + 1) [⟨0, true, [(0, some 1)]⟩]).state = some [(0, 1)] :=
  claim_C7_amended_force_full _ _ _ _ _ _ (by decide) (by decide) (by decide)

/-- C6 counterexample to the claim as stated: in the top-level per-variable
loop there is no try/except, so a transport-level `RuntimeError` for variable 2
propagates and halts the run — variable 3 is never fetched and its file stays
untouched (`none`), even though a fetch for it would have succeeded and
persisted data. -/
theorem claim_C6_counterexample :
    download_all_smard_data 10 0 (fun t => t + 1)
        [((none : Option (List (Nat × Int))), [⟨0, true, [(0, some (1 : Int))]⟩]),
         (none, ([] : List (Block Nat Int))),
         (none, [⟨0, true, [(0, some 3)]⟩])]
      = ([some [(0, 1)], none, none], true) ∧
    (download_single_variable (none : Option (List (Nat × Int))) false 10 0
        (fun t => t + 1) [⟨0, true, [(0, some (3 : Int))]⟩]).state = some [(0, 3)] := by
  decide

/-- C6 (amended): failure isolation holds only inside the monthly capacities
bundle, where every fetch error is caught (and merely printed): a 3-constituent
bundle whose second variable's fetch raises still persists a bundle built from
the successful constituents 1 and 3.  In the top-level hourly loop a transport
error propagates and halts the run (see the counterexample), and no nonzero
exit status is produced for swallowed bundle failures. -/
theorem claim_C6_amended_bundle_isolation [LinearOrder α]
    (c1 c2 c3 : String) (b1 b2 b3 : List (Block α β)) (now origin : α)
    (step : α → α) (e : FetchErr) (s1 s3 : List (α × β))
    (h1 : download_smard_data b1 (some origin) = Except.ok s1)
    (h1ne : ¬ s1.isEmpty = true)
    (h2 : download_smard_data b2 (some origin) = Except.error e)
    (h3 : download_smard_data b3 (some origin) = Except.ok s3)
    (h3ne : ¬ s3.isEmpty = true)
    (hnow : origin < now) :
    download_capacities (none : Option (List (α × List (String × β)))) false now
        origin step [(c1, b1), (c2, b2), (c3, b3)]
      = ⟨some (bundleFrame [(c1, s1), (c3, s3)]), true⟩ := by
  have hfetch : capacityFetches [(c1, b1), (c2, b2), (c3, b3)] origin
      = [(c1, s1), (c3, s3)] := by
    simp only [capacityFetches, List.filterMap_cons, List.filterMap_nil, h1, h2, h3]
    rw [if_neg h1ne, if_neg h3ne]
  simp only [download_capacities]
  have h0 : startOf (if (false : Bool) then none
      else (none : Option (List (α × List (String × β))))) origin step = origin := rfl
  rw [h0, if_neg (not_le.mpr hnow), hfetch, if_neg (by simp)]
  rfl

/-- Witness for C6 (amended): a concrete 3-constituent capacities bundle where
the middle variable's fetch errors and the other two succeed. -/
theorem claim_C6_witness :
    download_capacities (none : Option (List (Nat × List (String × Int)))) false 10 0
        (fun t => t + 1)
        [("biomass", [⟨0, true, [(0, some 1)]⟩]),
         ("hydro", ([] : List (Block Nat Int))),
         ("solar", [⟨0, true, [(0, some 3)]⟩])]
      = ⟨some (bundleFrame [("biomass", [(0, 1)]), ("solar", [(0, 3)])]), true⟩ :=
  claim_C6_amended_bundle_isolation "biomass" "hydro" "solar" _ _ _ 10 0 _
    FetchErr.other _ _ (by decide) (by decide) (by decide) (by decide) (by decide)
    (by decide)

/-- C9: evaluation of the fetch client at the failing input.  Upstream has a
block starting at 0 containing observations at 0 and 6, and a block starting at
10 containing an observation at 10.  With `since = 5`, the source filters
*block-start* timestamps, keeping only the block starting at 10, so the
observation `(6, 2)` — timestamped at or after `since` but contained in the
earlier-started block — is silently missing from the returned series, violating
"contains every upstream observation timestamped at or after since". -/
theorem claim_C9_failing_input_eval :
    download_smard_data
        [⟨(0 : Nat), true, [(0, some (1 : Int)), (6, some 2)]⟩,
         ⟨10, true, [(10, some 3)]⟩] (some 5)
      = Except.ok [(10, 3)] ∧
    (6, some (2 : Int)) ∈ rawRows
        [⟨(0 : Nat), true, [(0, some (1 : Int)), (6, some 2)]⟩,
         ⟨10, true, [(10, some 3)]⟩] ∧
    (5 : Nat) ≤ 6 ∧
    lookupTs (6 : Nat) [((10 : Nat), (3 : Int))] = none := by
  decide
